import Mathlib

/-!
Verification development for the Telegram trading bot (`src/index.js`).

The repository is a single JavaScript file wiring a Telegram chat transport
(grammY) to the Coinbase SDK.  The core subsystems embedded here are:

* the secret codec (`encrypt`/`decrypt`, lines 344-354): AES-256-CBC via
  Node's `crypto.createCipheriv`/`createDecipheriv`.  The AES-256 block
  permutation itself lives in OpenSSL (an external collaborator), so it is
  modelled as an abstract `BlockCipher` parameter; the CBC chaining mode and
  PKCS#7 padding — the semantics of the `"aes-256-cbc"` algorithm string with
  default padding — are modelled concretely, as is the hex transcoding the
  source performs at the codec boundary;
* the credential store (`getOrCreateAddress`, lines 84-126) over PouchDB and
  the Coinbase wallet gateway, both modelled as environment oracles;
* the conversation state store (`userStates` with `updateUserState` /
  `clearUserState` / `getUserState`, lines 40-53), a per-user record with
  JavaScript spread-merge updates;
* the trade flow engine (`executeTrade`, `handleInitialBuy`,
  `handleInitialSell`, lines 158-247) and the inbound message dispatcher
  (`bot.on("message:text")`, lines 282-331).

Amount parsing and comparison (`decimal.js`) is modelled with exact rational
arithmetic, matching the arbitrary-precision decimal semantics of the
library.  Outbound chat sends (`ctx.reply` / `sendReply`) are modelled as
always succeeding; transport failures are outside the embedded core.
-/

/-! ## Bytes and hex transcoding

`Buffer.from(s, "hex")` in Node parses hex pairs left to right and stops at
the first character that is not a hex digit, or at a trailing unpaired
digit, returning the bytes decoded so far.  `Buffer.prototype.toString("hex")`
emits lowercase hex. -/

abbrev Bytes := List Nat

def hexDigitVal (c : Char) : Option Nat :=
  if 48 ≤ c.toNat ∧ c.toNat ≤ 57 then some (c.toNat - 48)
  else if 97 ≤ c.toNat ∧ c.toNat ≤ 102 then some (c.toNat - 87)
  else if 65 ≤ c.toNat ∧ c.toNat ≤ 70 then some (c.toNat - 55)
  else none

def hexPairsAux : List Char → Bytes
  | c1 :: c2 :: rest =>
    match hexDigitVal c1, hexDigitVal c2 with
    | some h, some l => (16 * h + l) :: hexPairsAux rest
    | _, _ => []
  | _ => []

/-- `Buffer.from(s, "hex")`: lenient pairwise hex decoding. -/
def bufferFromHex (s : String) : Bytes :=
  hexPairsAux s.data

/-- One lowercase hex digit, `d < 16`. -/
def hexChar (d : Nat) : Char :=
  if d < 10 then Char.ofNat (48 + d) else Char.ofNat (87 + d)

/-- `buf.toString("hex")` for a list of bytes. -/
def bytesToHex (b : Bytes) : String :=
  String.mk ((b.map fun n => [hexChar (n / 16), hexChar (n % 16)]).flatten)

/-! ## The secret codec: AES-256-CBC with PKCS#7 padding

`encrypt(text, iv)` / `decrypt(encrypted, iv)` (src/index.js lines 344-354)
call Node's `crypto.createCipheriv("aes-256-cbc", key, iv)` with the key
`Buffer.from(process.env.ENCRYPTION_KEY, "hex")`.  `createCipheriv` rejects a
key that is not exactly 32 bytes and an IV that is not exactly 16 bytes; the
cipher then runs CBC chaining with PKCS#7 padding over the AES-256 block
permutation.  The block permutation is external (OpenSSL), so it is a
parameter `BlockCipher`; every fact proved below about an arbitrary
`BlockCipher` satisfying the block-inverse laws holds in particular for
AES-256. -/

structure BlockCipher where
  encBlock : Bytes → Bytes → Bytes
  decBlock : Bytes → Bytes → Bytes

def xorBytes (a b : Bytes) : Bytes :=
  List.zipWith Nat.xor a b

def padLen (n : Nat) : Nat := 16 - n % 16

def pkcs7pad (p : Bytes) : Bytes :=
  p ++ List.replicate (padLen p.length) (padLen p.length)

def pkcs7unpad (l : Bytes) : Option Bytes :=
  let n := l.getLastD 0
  if 1 ≤ n ∧ n ≤ 16 ∧ n ≤ l.length ∧ (l.drop (l.length - n)).all (fun x => x == n)
  then some (l.take (l.length - n)) else none

def chunk16Fuel : Nat → Bytes → List Bytes
  | 0, _ => []
  | _ + 1, [] => []
  | k + 1, l => l.take 16 :: chunk16Fuel k (l.drop 16)

/-- Split a byte string into 16-byte blocks (the last one possibly short);
`l.length` steps of fuel always suffice. -/
def chunk16 (l : Bytes) : List Bytes :=
  chunk16Fuel l.length l

def cbcEnc (c : BlockCipher) (key : Bytes) : Bytes → List Bytes → List Bytes
  | _, [] => []
  | prev, b :: bs =>
    let ct := c.encBlock key (xorBytes b prev)
    ct :: cbcEnc c key ct bs

def cbcDec (c : BlockCipher) (key : Bytes) : Bytes → List Bytes → List Bytes
  | _, [] => []
  | prev, b :: bs => xorBytes (c.decBlock key b) prev :: cbcDec c key b bs

inductive JsError where
  /-- PouchDB "missing document": `error.name === 'not_found'`, `error.status === 404`. -/
  | notFound
  /-- any other store failure (timeout, connectivity); name is not `'not_found'`
  and status is not 404. -/
  | storeFailure
  /-- `createCipheriv`/`createDecipheriv` "Invalid key length". -/
  | keyLength
  /-- `createCipheriv`/`createDecipheriv` invalid IV length. -/
  | ivLength
  /-- `decipher.final()` "bad decrypt": corrupt padding or bad data length. -/
  | badDecrypt
  /-- `JSON.parse` failure (SyntaxError). -/
  | parseError
  /-- `Wallet.import` failure. -/
  | importError
  /-- `Wallet.create` failure. -/
  | createError
  /-- `db.put` failure. -/
  | putError
  /-- `createTrade` / `trade.wait` provider failure. -/
  | tradeError
  /-- balance query provider failure. -/
  | balanceError
deriving DecidableEq

/-- `encrypt(text, iv)` (line 344): hex-decode the key, validate key and IV
sizes as `createCipheriv` does, then CBC-encrypt the PKCS#7-padded plaintext
and hex-encode the result. -/
def nodeEncrypt (c : BlockCipher) (keyHex : String) (iv : Bytes) (plaintext : Bytes) :
    Except JsError String :=
  let key := bufferFromHex keyHex
  if key.length ≠ 32 then .error .keyLength
  else if iv.length ≠ 16 then .error .ivLength
  else .ok (bytesToHex (cbcEnc c key iv (chunk16 (pkcs7pad plaintext))).flatten)

/-- `decrypt(encrypted, iv)` (line 350): hex-decode key and ciphertext,
validate sizes, CBC-decrypt and strip PKCS#7 padding; a corrupt length or
invalid padding is the `"bad decrypt"` error. -/
def nodeDecrypt (c : BlockCipher) (keyHex : String) (ctHex : String) (iv : Bytes) :
    Except JsError Bytes :=
  let key := bufferFromHex keyHex
  if key.length ≠ 32 then .error .keyLength
  else if iv.length ≠ 16 then .error .ivLength
  else
    let ct := bufferFromHex ctHex
    if ct.length = 0 ∨ ct.length % 16 ≠ 0 then .error .badDecrypt
    else
      match pkcs7unpad (cbcDec c key iv (chunk16 ct)).flatten with
      | some p => .ok p
      | none => .error .badDecrypt

/-- Alter the first byte of a byte string (xor with 1). -/
def flipHead : Bytes → Bytes
  | [] => []
  | a :: r => (a ^^^ 1) :: r

/-- A sample 17-byte plaintext (two CBC blocks once padded). -/
def samplePlain : Bytes := List.replicate 17 7

/-! ## Decimal amounts (`decimal.js`)

`new Decimal(text)` parses an arbitrary-precision decimal and throws on a
string that is not a valid numeric literal; `"NaN"` and `"Infinity"` (with an
optional sign) are accepted as the special values.  A parse failure is
modelled as `none` (the constructor throw).  Values are exact rationals —
decimal.js keeps full decimal precision, so exact rational arithmetic is the
faithful model for the comparisons the source performs (`isNaN`,
`greaterThan`).  Binary/hex/octal prefixed literals accepted by decimal.js
are outside the inputs this bot's flows use and are not modelled. -/

inductive Dec where
  | nan
  | inf (neg : Bool)
  | val (q : ℚ)
deriving DecidableEq

def decIsNaN : Dec → Bool
  | .nan => true
  | _ => false

/-- `a.greaterThan(b)`: any comparison against NaN is false; infinities
compare in the usual order. -/
def decGt : Dec → Dec → Bool
  | .nan, _ => false
  | _, .nan => false
  | .inf n1, .inf n2 => !n1 && n2
  | .inf n1, .val _ => !n1
  | .val _, .inf n2 => n2
  | .val a, .val b => decide (b < a)

def isDigitCh (c : Char) : Bool :=
  48 ≤ c.toNat && c.toNat ≤ 57

def takeDigits : List Char → List Char × List Char
  | [] => ([], [])
  | c :: r =>
    if isDigitCh c then
      let p := takeDigits r
      (c :: p.1, p.2)
    else ([], c :: r)

def digitsToNat (l : List Char) : Nat :=
  l.foldl (fun acc c => 10 * acc + (c.toNat - 48)) 0

def splitSign : List Char → Bool × List Char
  | '-' :: r => (true, r)
  | '+' :: r => (false, r)
  | l => (false, l)

/-- Parse the mantissa `digits [. digits]` (at least one digit in total);
returns the combined digit value, the fraction length and the rest. -/
def parseMantissa (l : List Char) : Option (Nat × Nat × List Char) :=
  let ip := takeDigits l
  match ip.2 with
  | '.' :: r2 =>
    let fp := takeDigits r2
    if ip.1.isEmpty && fp.1.isEmpty then none
    else some (digitsToNat (ip.1 ++ fp.1), fp.1.length, fp.2)
  | _ => if ip.1.isEmpty then none else some (digitsToNat ip.1, 0, ip.2)

/-- Parse an optional exponent part `e[+-]digits` ending the literal. -/
def parseExpo : List Char → Option Int
  | [] => some 0
  | c :: r =>
    if c = 'e' ∨ c = 'E' then
      let s := splitSign r
      let ds := takeDigits s.2
      if ds.1.isEmpty || !ds.2.isEmpty then none
      else some (if s.1 then -(digitsToNat ds.1 : Int) else (digitsToNat ds.1 : Int))
    else none

/-- The exact rational value `±(M / 10^f) * 10^e`, built with `mkRat` so the
value is a normalized rational. -/
def decValue (neg : Bool) (M f : Nat) (e : Int) : ℚ :=
  let q : ℚ :=
    if (f : Int) ≤ e then mkRat ((M * 10 ^ (e - (f : Int)).toNat : Nat) : Int) 1
    else mkRat ((M : Nat) : Int) (10 ^ (((f : Int) - e).toNat))
  if neg then -q else q

/-- `new Decimal(text)`: `none` models the constructor throwing on an
invalid literal. -/
def parseDec (s : String) : Option Dec :=
  let sp := splitSign s.data
  if sp.2 = "NaN".data then some .nan
  else if sp.2 = "Infinity".data then some (.inf sp.1)
  else
    match parseMantissa sp.2 with
    | none => none
    | some (M, f, rest) =>
      match parseExpo rest with
      | none => none
      | some e => some (.val (decValue sp.1 M f e))

/-! ## Conversation state store

`userStates` (line 26) maps a user id to a plain object.  `updateUserState`
(line 40) spread-merges a partial record over the current one (`{}` when
absent); `clearUserState` (line 46) deletes the entry; `getUserState`
(line 51) returns the entry or `{}`.  All claims are per-user, so the store
is modelled as the single user's slot, `Option ConvState` (`none` = no
entry, the Idle zero state). -/

structure ConvState where
  buyRequested : Bool := false
  sellRequested : Bool := false
  step : Option String := none
  asset : Option String := none
  address : Option Nat := none
  lastMessageId : Option Nat := none
deriving DecidableEq

/-- A partial record: exactly the fields present in the object literal
passed to `updateUserState`; spread-merge keeps the old value of every
absent field. -/
structure StatePatch where
  buyRequested : Option Bool := none
  sellRequested : Option Bool := none
  step : Option (Option String) := none
  asset : Option (Option String) := none
  address : Option (Option Nat) := none
  lastMessageId : Option (Option Nat) := none

def emptyConvState : ConvState := {}

def applyPatch (s : ConvState) (p : StatePatch) : ConvState where
  buyRequested := p.buyRequested.getD s.buyRequested
  sellRequested := p.sellRequested.getD s.sellRequested
  step := p.step.getD s.step
  asset := p.asset.getD s.asset
  address := p.address.getD s.address
  lastMessageId := p.lastMessageId.getD s.lastMessageId

def getUserState (conv : Option ConvState) : ConvState :=
  conv.getD emptyConvState

def updateUserState (conv : Option ConvState) (p : StatePatch) : Option ConvState :=
  some (applyPatch (getUserState conv) p)

/-- `String.prototype.toLowerCase()` restricted to the ASCII range the
flows compare against ("eth", tickers). -/
def jsToLower (s : String) : String :=
  String.mk (s.data.map Char.toLower)

/-- `Coinbase.assets.Eth`, the quote currency identifier. -/
def coinbaseAssetEth : String := "eth"

structure Wallet where
  exportData : String
  defaultAddr : Nat
deriving DecidableEq

/-- A fully specified, not-yet-submitted trade, as passed to
`userAddress.createTrade({ amount, fromAssetId, toAssetId })` (line 229). -/
structure TradeIntent where
  amount : Dec
  fromAssetId : String
  toAssetId : String
deriving DecidableEq

inductive DbGetResult where
  /-- `db.get` resolved with a stored record `{ivString, encryptedWalletData}`. -/
  | found (ivString : String) (encryptedWalletData : String)
  /-- `db.get` rejected with the distinguished missing-document error
  (`name === 'not_found'`, `status === 404`). -/
  | notFound
  /-- `db.get` rejected with any other store error (timeout, connectivity);
  such an error never carries `name === 'not_found'` or `status === 404`. -/
  | failure
deriving DecidableEq

/-- Observable world state threaded through one inbound-message task:
the user's conversation slot, the credential store document, call counters
for the external collaborators, and the outbound replies and submitted
trade intents of the current task. -/
structure World where
  conv : Option ConvState := none
  doc : Option (String × String) := none
  getCount : Nat := 0
  putCount : Nat := 0
  createCount : Nat := 0
  msgId : Nat := 0
  replies : List String := []
  intents : List TradeIntent := []
deriving DecidableEq

/-- External collaborators (PouchDB, the Coinbase SDK, randomness and the
process environment), modelled as oracles. `dbGets n` is the outcome of the
`n`-th `db.get` call of the process. -/
structure Env where
  cipher : BlockCipher
  encryptionKey : String
  dbGets : Nat → DbGetResult
  dbPut : Except JsError Unit
  randomIv : Bytes
  createWallet : Except JsError Wallet
  jsonStringify : String → Bytes
  jsonParse : Bytes → Except JsError String
  importWallet : String → Except JsError Wallet
  listBalances : Nat → Except JsError String
  balanceOf : Nat → String → Except JsError Dec
  tradeSubmit : Nat → TradeIntent → Except JsError String
  tradeWait : Except JsError Unit

/-- `ctx.reply(...)`: an untracked outbound reply. -/
def plainReply (w : World) (text : String) : World :=
  { w with replies := w.replies ++ [text] }

/-- `sendReply` (line 67): replies and records the sent message id in the
user's conversation state. -/
def sendReply (w : World) (text : String) : World :=
  { w with replies := w.replies ++ [text],
           msgId := w.msgId + 1,
           conv := updateUserState w.conv { lastMessageId := some (some w.msgId) } }

/-- `clearUserState` (line 46): `delete userStates[user.id]`. -/
def clearUserState (w : World) : World :=
  { w with conv := none }

/-! ## Credential store: `getOrCreateAddress` (lines 84-126) -/

/-- Lines 97-101: the body of the try block loading an existing record —
decrypt the stored blob with the record's IV, `JSON.parse` it and
`Wallet.import` the result.  None of these steps can fail with an error
whose `name` is `'not_found'` or whose `status` is 404, so a failure here is
rethrown by the catch at lines 102-116, never treated as a missing record. -/
def loadWallet (env : Env) (ivString encHex : String) : Except JsError Wallet :=
  match nodeDecrypt env.cipher env.encryptionKey encHex (bufferFromHex ivString) with
  | .error e => .error e
  | .ok pt =>
    match env.jsonParse pt with
    | .error e => .error e
    | .ok wd => env.importWallet wd

/-- Lines 119-121: `wallet.getDefaultAddress()`, cache it in the user state
and return it. -/
def finishWallet (wallet : Wallet) (w : World) : Except JsError Nat × World :=
  (.ok wallet.defaultAddr,
   { w with conv := updateUserState w.conv { address := some (some wallet.defaultAddr) } })

def getOrCreateAddress (env : Env) (w : World) : Except JsError Nat × World :=
  match (getUserState w.conv).address with
  | some a => (.ok a, w)
  | none =>
    let w1 : World := { w with getCount := w.getCount + 1 }
    match env.dbGets w.getCount with
    | .found ivS encHex =>
      match loadWallet env ivS encHex with
      | .error e => (.error e, w1)
      | .ok wallet => finishWallet wallet w1
    | .notFound =>
      match env.createWallet with
      | .error e => (.error e, w1)
      | .ok wallet =>
        let w2 : World := { w1 with createCount := w1.createCount + 1 }
        match nodeEncrypt env.cipher env.encryptionKey env.randomIv
            (env.jsonStringify wallet.exportData) with
        | .error e => (.error e, w2)
        | .ok encHex =>
          let w3 : World := { w2 with putCount := w2.putCount + 1 }
          match env.dbPut with
          | .error e => (.error e, w3)
          | .ok _ =>
            finishWallet wallet { w3 with doc := some (bytesToHex env.randomIv, encHex) }
    | .failure => (.error .storeFailure, w1)

/-! ## Trade flow engine (lines 158-247) and message dispatcher (282-331) -/

inductive TradeKind where
  | buy
  | sell
deriving DecidableEq

/-- The reply strings of the flow, verbatim from the source. -/
def ethSellRejectMsg : String :=
  "You cannot sell ETH, as it is the quote currency. Please try again."

def askAssetBuyMsg : String :=
  "Please respond with the asset you would like to buy (ticker or contract address)."

def askAssetSellMsg : String :=
  "Please respond with the asset you would like to sell (ticker or contract address)."

def amountPromptMsg : TradeKind → String
  | .buy => "Please respond with the amount of ETH you would like to spend."
  | .sell => "Please respond with the amount of the asset you would like to sell."

def insufficientMsg : String :=
  "Invalid amount or insufficient balance. Please try again."

def flowName : TradeKind → String
  | .buy => "buy"
  | .sell => "sell"

def initiatingMsg (ty : TradeKind) : String :=
  "Initiating " ++ flowName ty ++ "..."

def successMsg (ty : TradeKind) (link : String) : String :=
  "Successfully completed " ++ flowName ty ++ ": [Basescan Link](" ++ link ++ ")"

def execErrorMsg (ty : TradeKind) : String :=
  "An error occurred while executing the " ++ flowName ty ++ ". Please try again."

def genericErrorMsg : String :=
  "An error occurred. Please try again."

def dispatchErrorMsg : String :=
  "An error occurred while processing your request. Please try again."

def balanceErrMsg : String :=
  "Error checking balance. Please try again later."

def depositErrMsg : String :=
  "Error generating deposit address. Please try again later."

/-- The spend-side asset of the balance check (line 213) and the
`fromAssetId` of the intent (lines 222-224): ETH for a buy, the selected
asset for a sell. -/
def fromAssetOf : TradeKind → String → String
  | .buy, _ => coinbaseAssetEth
  | .sell, a => a

def toAssetOf : TradeKind → String → String
  | .buy, a => a
  | .sell, _ => coinbaseAssetEth

/-- `executeTrade(ctx, type, userState)` (lines 190-247).  `userState` is the
snapshot read by `handleBuy`/`handleSell`.  A `new Decimal` throw, a
`getOrCreateAddress` failure or a `getBalance` failure lands in the outer
catch (lines 242-246): generic reply, state cleared.  A `createTrade` or
`trade.wait` failure lands in the inner catch (lines 235-238) and the state
is cleared afterwards (line 240).  Outbound sends are modelled as succeeding. -/
def executeTrade (env : Env) (ty : TradeKind) (st : ConvState) (text : String) (w : World) :
    World :=
  match st.asset with
  | none =>
    if jsToLower text == "eth" && (ty == TradeKind.sell) then
      clearUserState (plainReply w ethSellRejectMsg)
    else
      let p : StatePatch :=
        { asset := some (some (jsToLower text)), step := some (some "amount") }
      let w1 : World := { w with conv := updateUserState w.conv p }
      sendReply w1 (amountPromptMsg ty)
  | some asset =>
    match parseDec text with
    | none => clearUserState (plainReply w genericErrorMsg)
    | some amount =>
      match getOrCreateAddress env w with
      | (.error _, w1) => clearUserState (plainReply w1 genericErrorMsg)
      | (.ok addr, w1) =>
        match env.balanceOf addr (fromAssetOf ty asset) with
        | .error _ => clearUserState (plainReply w1 genericErrorMsg)
        | .ok bal =>
          if decIsNaN amount || decGt amount bal then
            clearUserState (plainReply w1 insufficientMsg)
          else
            let intent : TradeIntent :=
              { amount := amount, fromAssetId := fromAssetOf ty asset,
                toAssetId := toAssetOf ty asset }
            let w2 : World := sendReply w1 (initiatingMsg ty)
            let w3 : World := { w2 with intents := w2.intents ++ [intent] }
            match env.tradeSubmit addr intent with
            | .error _ => clearUserState (plainReply w3 (execErrorMsg ty))
            | .ok link =>
              match env.tradeWait with
              | .error _ => clearUserState (plainReply w3 (execErrorMsg ty))
              | .ok _ => clearUserState (sendReply w3 (successMsg ty link))

/-- `handleInitialBuy` (line 158). -/
def handleInitialBuy (w : World) : World :=
  let p : StatePatch := { buyRequested := some true, step := some (some "asset") }
  sendReply { w with conv := updateUserState w.conv p } askAssetBuyMsg

/-- `handleInitialSell` (line 169). -/
def handleInitialSell (w : World) : World :=
  let p : StatePatch := { sellRequested := some true, step := some (some "asset") }
  sendReply { w with conv := updateUserState w.conv p } askAssetSellMsg

/-- `handleCheckBalance` (line 129); the rendering of the balance map is an
external concern, supplied by the `listBalances` oracle. -/
def handleCheckBalance (env : Env) (w : World) : World :=
  match getOrCreateAddress env w with
  | (.error _, w1) => plainReply w1 balanceErrMsg
  | (.ok addr, w1) =>
    match env.listBalances addr with
    | .error _ => plainReply w1 balanceErrMsg
    | .ok s =>
      sendReply w1 ("Your current balances are as follows:\n" ++ s)

/-- `handleDeposit` (line 143). -/
def handleDeposit (env : Env) (w : World) : World :=
  match getOrCreateAddress env w with
  | (.error _, w1) => plainReply w1 depositErrMsg
  | (.ok addr, w1) =>
    sendReply
      (sendReply
        (sendReply w1
          "_Note: As this is a test app, make sure to deposit only small amounts of ETH!_")
        "Please send your ETH to the following address on Base:")
      (toString addr)

/-- Which branch of the `bot.on("message:text")` handler consumed the
message. -/
inductive Route where
  | flow
  | menuCheckBalance
  | menuDeposit
  | menuBuy
  | menuSell
  | menuHelp
  | menuSettings
  | menuDefault
deriving DecidableEq

/-- The ternary at line 289: `userState.buyRequested ? handleBuy : handleSell`. -/
def tyOf (st : ConvState) : TradeKind :=
  if st.buyRequested then TradeKind.buy else TradeKind.sell

/-- The `bot.on("message:text")` handler (lines 282-331): an active buy or
sell flow consumes the message first; otherwise the text is matched against
the menu labels. -/
def handleMessage (env : Env) (text : String) (w : World) : Route × World :=
  let st := getUserState w.conv
  if st.buyRequested || st.sellRequested then
    (Route.flow, executeTrade env (tyOf st) st text w)
  else if text == "Check Balance" then
    (Route.menuCheckBalance, handleCheckBalance env w)
  else if text == "Deposit" then
    (Route.menuDeposit, handleDeposit env w)
  else if text == "Buy" then
    (Route.menuBuy, handleInitialBuy w)
  else if text == "Sell" then
    (Route.menuSell, handleInitialSell w)
  else if text == "Help" then
    (Route.menuHelp, plainReply w "Available commands: Check Balance, Deposit, Buy, Sell, Help, Settings. Send /start to see this menu again.")
  else if text == "Settings" then
    (Route.menuSettings, plainReply w "Settings menu is coming soon.")
  else
    (Route.menuDefault,
     plainReply w "Please select an option from the menu or type /start to see available commands.")

deriving instance DecidableEq for Except

/-! ## Startup configuration check (lines 11-22)

`requiredEnvVars.forEach` throws when `process.env[name]` is falsy —
`undefined` or the empty string.  That is the whole startup validation: no
hex-validity or length check is performed on `ENCRYPTION_KEY` at startup;
`Buffer.from(key, "hex")` and `createCipheriv` only run inside
`encrypt`/`decrypt`. -/

structure ProcEnvVars where
  telegramBotToken : Option String
  coinbaseApiKeyName : Option String
  coinbaseApiKeySecret : Option String
  encryptionKey : Option String

/-- JavaScript truthiness of `process.env[name]`: `undefined` and `""` are
falsy, every other string is truthy. -/
def truthyStr : Option String → Bool
  | none => false
  | some s => !(s == "")

def startupEnvCheck (e : ProcEnvVars) : Bool :=
  truthyStr e.telegramBotToken && truthyStr e.coinbaseApiKeyName &&
    truthyStr e.coinbaseApiKeySecret && truthyStr e.encryptionKey

/-! ## Concrete instantiations used by witnesses

The codec theorems are universal over the block cipher; witnesses
instantiate them with the identity block permutation, which satisfies the
block-cipher laws (inverse, length- and byte-range-preservation). -/

def idCipher : BlockCipher where
  encBlock := fun _ b => b
  decBlock := fun _ b => b

/-- A well-formed 32-byte key, hex-encoded (64 hex digits). -/
def zeroKeyHex : String := String.mk (List.replicate 64 '0')

/-- A concrete environment: empty credential store, wallet creation yields
address 5, importing a stored record yields address 9, 2 ETH of balance,
trades settle with link "link1". -/
def envDefault : Env where
  cipher := idCipher
  encryptionKey := zeroKeyHex
  dbGets := fun _ => .notFound
  dbPut := .ok ()
  randomIv := List.replicate 16 0
  createWallet := .ok { exportData := "wd", defaultAddr := 5 }
  jsonStringify := fun _ => [1, 2, 3]
  jsonParse := fun _ => .ok "wd"
  importWallet := fun _ => .ok { exportData := "wd", defaultAddr := 9 }
  listBalances := fun _ => .ok "ETH: 2"
  balanceOf := fun _ _ => .ok (.val (mkRat 2 1))
  tradeSubmit := fun _ _ => .ok "link1"
  tradeWait := .ok ()

/-- A conversation waiting for a buy amount of "usdc". -/
def wAmountBuy : World :=
  { conv := some { buyRequested := true, asset := some "usdc", step := some "amount" } }

/-- A conversation in the sell flow waiting for the asset name. -/
def wAssetSell : World :=
  { conv := some { sellRequested := true, step := some "asset" } }

/-- The ciphertext bytes of `samplePlain` under the identity cipher, zero
key and zero IV. -/
def ctBytesC5 : Bytes := List.replicate 16 7 ++ (0 :: List.replicate 15 8)

/-- What the flipped ciphertext decrypts to: a garbled first block and the
final data byte xored with 1, with the padding check still passing. -/
def pBadC5 : Bytes := 6 :: (List.replicate 15 7 ++ [6])

def ivHexZero : String := bytesToHex (List.replicate 16 0)

/-- A stored record that decrypts and imports successfully under
`envDefault`'s oracles. -/
def ctHexC4 : String := bytesToHex (pkcs7pad [1, 2, 3])

/-- A store whose first lookup fails transiently while a second lookup would
find a perfectly healthy record. -/
def envC4 : Env :=
  { envDefault with dbGets := fun n => if n = 0 then .failure else .found ivHexZero ctHexC4 }

/-- A store whose lookup finds a record, stored under a key of the wrong
length, so decryption fails. -/
def envC3 : Env :=
  { envDefault with encryptionKey := "ab",
                    dbGets := fun _ => .found ivHexZero ctHexC4 }

/-- All four variables present and non-empty, but the encryption key is two
hex digits — one byte — instead of the 32 bytes AES-256 needs. -/
def envVarsShortKey : ProcEnvVars where
  telegramBotToken := some "t"
  coinbaseApiKeyName := some "k"
  coinbaseApiKeySecret := some "s"
  encryptionKey := some "ab"

/-- The world after resolving the wallet in `wAmountBuy` under `envDefault`. -/
def w1Def : World := (getOrCreateAddress envDefault wAmountBuy).2

theorem hexDigitVal_hexChar (d : Nat) (h : d < 16) :
    hexDigitVal (hexChar d) = some d := by
  interval_cases d <;> rfl

theorem bufferFromHex_bytesToHex (b : Bytes) (h : ∀ x ∈ b, x < 256) :
    bufferFromHex (bytesToHex b) = b := by
  induction b with
  | nil => rfl
  | cons n r ih =>
    have hn : n < 256 := h n (List.mem_cons_self ..)
    have hdiv : n / 16 < 16 := by omega
    have hmod : n % 16 < 16 := by omega
    have hr : ∀ x ∈ r, x < 256 := fun x hx => h x (List.mem_cons_of_mem _ hx)
    simp only [bufferFromHex, bytesToHex, List.map_cons, List.flatten_cons] at *
    simp only [List.cons_append, List.nil_append, hexPairsAux,
      hexDigitVal_hexChar _ hdiv, hexDigitVal_hexChar _ hmod]
    rw [Nat.div_add_mod]
    simpa using ih hr

/-! ### Codec lemmas -/

theorem chunk16Fuel_congr : ∀ (k k2 : Nat) (l : Bytes), l.length ≤ k → l.length ≤ k2 →
    chunk16Fuel k l = chunk16Fuel k2 l := by
  intro k
  induction k with
  | zero =>
    intro k2 l hk hk2
    have hnil : l = [] := by
      cases l with
      | nil => rfl
      | cons _ _ => simp at hk
    subst hnil
    cases k2 <;> rfl
  | succ m ih =>
    intro k2 l hk hk2
    cases k2 with
    | zero =>
      have hnil : l = [] := by
        cases l with
        | nil => rfl
        | cons _ _ => simp at hk2
      subst hnil
      rfl
    | succ m2 =>
      cases l with
      | nil => rfl
      | cons a r =>
        show (a :: r).take 16 :: chunk16Fuel m ((a :: r).drop 16)
            = (a :: r).take 16 :: chunk16Fuel m2 ((a :: r).drop 16)
        have hlen : ((a :: r).drop 16).length ≤ m := by
          simp only [List.length_drop, List.length_cons]
          simp only [List.length_cons] at hk
          omega
        have hlen2 : ((a :: r).drop 16).length ≤ m2 := by
          simp only [List.length_drop, List.length_cons]
          simp only [List.length_cons] at hk2
          omega
        rw [ih _ _ hlen hlen2]

theorem chunk16_unfold (l : Bytes) :
    chunk16 l = if l.isEmpty then [] else l.take 16 :: chunk16 (l.drop 16) := by
  cases l with
  | nil => rfl
  | cons a r =>
    show chunk16Fuel (r.length + 1) (a :: r)
        = if (a :: r).isEmpty then [] else (a :: r).take 16 :: chunk16 ((a :: r).drop 16)
    have : (a :: r).isEmpty = false := rfl
    rw [this]
    simp only [Bool.false_eq_true, if_false]
    show (a :: r).take 16 :: chunk16Fuel r.length ((a :: r).drop 16)
        = (a :: r).take 16 :: chunk16 ((a :: r).drop 16)
    rw [chunk16]
    have hlen : ((a :: r).drop 16).length ≤ r.length := by
      simp only [List.length_drop, List.length_cons]
      omega
    rw [chunk16Fuel_congr r.length ((a :: r).drop 16).length _ hlen le_rfl]

theorem xorBytes_length (a b : Bytes) : (xorBytes a b).length = min a.length b.length := by
  simp [xorBytes]

theorem xorBytes_cancel (a b : Bytes) (h : a.length = b.length) :
    xorBytes (xorBytes a b) b = a := by
  induction a generalizing b with
  | nil => cases b <;> simp [xorBytes]
  | cons x xs ih =>
    cases b with
    | nil => simp at h
    | cons y ys =>
      simp only [xorBytes, List.zipWith_cons_cons] at *
      have hx : Nat.xor (Nat.xor x y) y = x := Nat.xor_cancel_right y x
      rw [hx, ih ys (by simpa using h)]

theorem chunk16_nil : chunk16 [] = [] := rfl

theorem chunk16_append (b r : Bytes) (hb : b.length = 16) :
    chunk16 (b ++ r) = b :: chunk16 r := by
  have hne : b ≠ [] := by
    intro hb0
    rw [hb0] at hb
    simp at hb
  rw [chunk16_unfold]
  have : (b ++ r).isEmpty = false := by
    cases b with
    | nil => exact absurd rfl hne
    | cons _ _ => rfl
  rw [this]
  simp only [Bool.false_eq_true, if_false]
  rw [List.take_left' hb, List.drop_left' hb]

theorem chunk16_flatten (bs : List Bytes) (h : ∀ b ∈ bs, b.length = 16) :
    chunk16 bs.flatten = bs := by
  induction bs with
  | nil => simpa using chunk16_nil
  | cons b r ih =>
    rw [List.flatten_cons, chunk16_append b r.flatten (h b (List.mem_cons_self ..)),
      ih fun x hx => h x (List.mem_cons_of_mem _ hx)]

theorem padLen_pos (n : Nat) : 1 ≤ padLen n := by
  have := Nat.mod_lt n (show 0 < 16 by decide)
  simp only [padLen]
  omega

theorem padLen_le (n : Nat) : padLen n ≤ 16 := by
  simp only [padLen]
  omega

theorem pkcs7pad_length (p : Bytes) :
    (pkcs7pad p).length = p.length + padLen p.length := by
  simp [pkcs7pad]

theorem pkcs7pad_length_mod (p : Bytes) : (pkcs7pad p).length % 16 = 0 := by
  rw [pkcs7pad_length]
  have h1 := Nat.div_add_mod p.length 16
  have h2 := Nat.mod_lt p.length (show 0 < 16 by decide)
  simp only [padLen]
  omega

theorem getLast?_replicate_of_pos (k x : Nat) (hk : 1 ≤ k) :
    (List.replicate k x).getLast? = some x := by
  induction k with
  | zero => omega
  | succ m ih =>
    cases Nat.eq_or_lt_of_le hk with
    | inl h =>
      have : m = 0 := by omega
      subst this
      rfl
    | inr h =>
      have hm : 1 ≤ m := by omega
      rw [List.replicate_succ, List.getLast?_cons, ih hm]
      cases m with
      | zero => omega
      | succ _ => rfl

theorem pkcs7unpad_pkcs7pad (p : Bytes) : pkcs7unpad (pkcs7pad p) = some p := by
  set n := padLen p.length with hn
  have h1 : 1 ≤ n := padLen_pos p.length
  have h16 : n ≤ 16 := padLen_le p.length
  have hlen : (pkcs7pad p).length = p.length + n := pkcs7pad_length p
  have hrep : (List.replicate n n : Bytes) ≠ [] := by
    cases hc : (n : Nat) with
    | zero => omega
    | succ m => simp [hc]
  have hlastq : (pkcs7pad p).getLast? = some n := by
    rw [pkcs7pad, ← hn, List.getLast?_append_of_ne_nil _ hrep,
      getLast?_replicate_of_pos n n h1]
  have hlast : (pkcs7pad p).getLastD 0 = n := by
    rw [List.getLastD_eq_getLast?, hlastq, Option.getD_some]
  have hdropn : (pkcs7pad p).length - n = p.length := by omega
  have hcond : 1 ≤ n ∧ n ≤ 16 ∧ n ≤ (pkcs7pad p).length ∧
      ((pkcs7pad p).drop ((pkcs7pad p).length - n)).all (fun x => x == n) = true := by
    refine ⟨h1, h16, by omega, ?_⟩
    rw [hdropn, pkcs7pad, ← hn, List.drop_left' rfl]
    simp [List.all_eq_true, List.mem_replicate]
  simp only [pkcs7unpad, hlast]
  rw [if_pos hcond, hdropn, pkcs7pad, ← hn, List.take_left' rfl]

theorem cbcEnc_length (c : BlockCipher) (key : Bytes)
    (henclen : ∀ b, b.length = 16 → (c.encBlock key b).length = 16) :
    ∀ (bs : List Bytes) (prev : Bytes), prev.length = 16 →
      (∀ b ∈ bs, b.length = 16) →
      ∀ cb ∈ cbcEnc c key prev bs, cb.length = 16 := by
  intro bs
  induction bs with
  | nil => intro prev _ _ cb hcb; simp [cbcEnc] at hcb
  | cons b r ih =>
    intro prev hprev hall cb hcb
    have hb : b.length = 16 := hall b (List.mem_cons_self ..)
    have hxor : (xorBytes b prev).length = 16 := by
      simp [xorBytes_length, hb, hprev]
    have hct : (c.encBlock key (xorBytes b prev)).length = 16 := henclen _ hxor
    simp only [cbcEnc, List.mem_cons] at hcb
    cases hcb with
    | inl h => rw [h]; exact hct
    | inr h => exact ih _ hct (fun x hx => hall x (List.mem_cons_of_mem _ hx)) cb h

theorem xorBytes_range (a : Bytes) : ∀ (b : Bytes), (∀ x ∈ a, x < 256) → (∀ x ∈ b, x < 256) →
    ∀ x ∈ xorBytes a b, x < 256 := by
  induction a with
  | nil => intro b _ _ x hx; simp [xorBytes] at hx
  | cons y ys ih =>
    intro b ha hb x hx
    cases b with
    | nil => simp [xorBytes] at hx
    | cons z zs =>
      simp only [xorBytes, List.zipWith_cons_cons, List.mem_cons] at hx
      cases hx with
      | inl h =>
        rw [h]
        have h256 : (256 : Nat) = 2 ^ 8 := by norm_num
        rw [h256]
        exact Nat.xor_lt_two_pow (h256 ▸ ha y (List.mem_cons_self ..))
          (h256 ▸ hb z (List.mem_cons_self ..))
      | inr h =>
        exact ih zs (fun u hu => ha u (List.mem_cons_of_mem _ hu))
          (fun u hu => hb u (List.mem_cons_of_mem _ hu)) x h

theorem cbcEnc_range (c : BlockCipher) (key : Bytes)
    (henclen : ∀ b, b.length = 16 → (c.encBlock key b).length = 16)
    (hencrange : ∀ b, b.length = 16 → (∀ x ∈ b, x < 256) →
      ∀ x ∈ c.encBlock key b, x < 256) :
    ∀ (bs : List Bytes) (prev : Bytes), prev.length = 16 → (∀ x ∈ prev, x < 256) →
      (∀ b ∈ bs, b.length = 16) → (∀ b ∈ bs, ∀ x ∈ b, x < 256) →
      ∀ cb ∈ cbcEnc c key prev bs, ∀ x ∈ cb, x < 256 := by
  intro bs
  induction bs with
  | nil => intro prev _ _ _ _ cb hcb; simp [cbcEnc] at hcb
  | cons b r ih =>
    intro prev hprev hprevr hall hallr cb hcb
    have hb : b.length = 16 := hall b (List.mem_cons_self ..)
    have hbr : ∀ x ∈ b, x < 256 := hallr b (List.mem_cons_self ..)
    have hxor : (xorBytes b prev).length = 16 := by
      simp [xorBytes_length, hb, hprev]
    have hxorr : ∀ x ∈ xorBytes b prev, x < 256 := xorBytes_range b prev hbr hprevr
    have hctr : ∀ x ∈ c.encBlock key (xorBytes b prev), x < 256 := hencrange _ hxor hxorr
    simp only [cbcEnc, List.mem_cons] at hcb
    cases hcb with
    | inl h => rw [h]; exact hctr
    | inr h =>
      exact ih _ (henclen _ hxor) hctr (fun x hx => hall x (List.mem_cons_of_mem _ hx))
        (fun x hx => hallr x (List.mem_cons_of_mem _ hx)) cb h

theorem cbcDec_cbcEnc (c : BlockCipher) (key : Bytes)
    (hinv : ∀ b, b.length = 16 → c.decBlock key (c.encBlock key b) = b)
    (henclen : ∀ b, b.length = 16 → (c.encBlock key b).length = 16) :
    ∀ (bs : List Bytes) (prev : Bytes), prev.length = 16 →
      (∀ b ∈ bs, b.length = 16) →
      cbcDec c key prev (cbcEnc c key prev bs) = bs := by
  intro bs
  induction bs with
  | nil => intro prev _ _; rfl
  | cons b r ih =>
    intro prev hprev hall
    have hb : b.length = 16 := hall b (List.mem_cons_self ..)
    have hxor : (xorBytes b prev).length = 16 := by
      simp [xorBytes_length, hb, hprev]
    simp only [cbcEnc, cbcDec]
    rw [hinv _ hxor, xorBytes_cancel b prev (by rw [hb, hprev])]
    rw [ih _ (henclen _ hxor) (fun x hx => hall x (List.mem_cons_of_mem _ hx))]


theorem cbcEnc_count (c : BlockCipher) (key : Bytes) :
    ∀ (bs : List Bytes) (prev : Bytes), (cbcEnc c key prev bs).length = bs.length := by
  intro bs
  induction bs with
  | nil => intro prev; rfl
  | cons b r ih =>
    intro prev
    simp only [cbcEnc, List.length_cons]
    rw [ih]

theorem flatten_length_of_blocks (bs : List Bytes) (h : ∀ b ∈ bs, b.length = 16) :
    bs.flatten.length = 16 * bs.length := by
  induction bs with
  | nil => rfl
  | cons b r ih =>
    simp only [List.flatten_cons, List.length_append, List.length_cons]
    rw [h b (List.mem_cons_self ..), ih fun x hx => h x (List.mem_cons_of_mem _ hx)]
    ring

theorem chunk16_blocks_aux :
    ∀ (k : Nat) (l : Bytes), l.length ≤ k → l.length % 16 = 0 →
      ∀ b ∈ chunk16 l, b.length = 16 := by
  intro k
  induction k with
  | zero =>
    intro l hle _ b hb
    have hnil : l = [] := by
      cases l with
      | nil => rfl
      | cons _ _ => simp at hle
    rw [hnil, chunk16_nil] at hb
    simp at hb
  | succ m ih =>
    intro l hle hmod b hb
    rw [chunk16_unfold] at hb
    by_cases hemp : l.isEmpty
    · rw [if_pos hemp] at hb
      simp at hb
    · rw [if_neg hemp] at hb
      have hne : l ≠ [] := by cases l <;> simp_all [List.isEmpty]
      have hpos : 0 < l.length := List.length_pos.mpr hne
      have h16 : 16 ≤ l.length := by omega
      simp only [List.mem_cons] at hb
      cases hb with
      | inl h =>
        rw [h, List.length_take]
        omega
      | inr h =>
        refine ih (l.drop 16) ?_ ?_ b h
        · simp only [List.length_drop]
          omega
        · simp only [List.length_drop]
          omega

theorem chunk16_blocks (l : Bytes) (hmod : l.length % 16 = 0) :
    ∀ b ∈ chunk16 l, b.length = 16 :=
  chunk16_blocks_aux l.length l le_rfl hmod

theorem chunk16_pkcs7pad_blocks (p : Bytes) :
    ∀ b ∈ chunk16 (pkcs7pad p), b.length = 16 :=
  chunk16_blocks _ (pkcs7pad_length_mod p)

theorem flatten_chunk16_aux : ∀ (k : Nat) (l : Bytes), l.length ≤ k →
    (chunk16 l).flatten = l := by
  intro k
  induction k with
  | zero =>
    intro l hle
    have hnil : l = [] := by
      cases l with
      | nil => rfl
      | cons _ _ => simp at hle
    rw [hnil, chunk16_nil]
    rfl
  | succ m ih =>
    intro l hle
    rw [chunk16_unfold]
    by_cases hemp : l.isEmpty
    · rw [if_pos hemp]
      cases l with
      | nil => rfl
      | cons _ _ => simp [List.isEmpty] at hemp
    · rw [if_neg hemp]
      have hne : l ≠ [] := by cases l <;> simp_all [List.isEmpty]
      have hpos : 0 < l.length := List.length_pos.mpr hne
      simp only [List.flatten_cons]
      rw [ih (l.drop 16) (by simp only [List.length_drop]; omega)]
      exact List.take_append_drop 16 l

theorem flatten_chunk16 (l : Bytes) : (chunk16 l).flatten = l :=
  flatten_chunk16_aux l.length l le_rfl

theorem pkcs7pad_length_pos (p : Bytes) : 0 < (pkcs7pad p).length := by
  rw [pkcs7pad_length]
  have := padLen_pos p.length
  omega

theorem chunk16_mem_aux : ∀ (k : Nat) (l : Bytes), l.length ≤ k →
    ∀ b ∈ chunk16 l, ∀ x ∈ b, x ∈ l := by
  intro k
  induction k with
  | zero =>
    intro l hle b hb
    have hnil : l = [] := by
      cases l with
      | nil => rfl
      | cons _ _ => simp at hle
    rw [hnil, chunk16_nil] at hb
    simp at hb
  | succ m ih =>
    intro l hle b hb x hx
    rw [chunk16_unfold] at hb
    by_cases hemp : l.isEmpty
    · rw [if_pos hemp] at hb
      simp at hb
    · rw [if_neg hemp] at hb
      have hne : l ≠ [] := by cases l <;> simp_all [List.isEmpty]
      have hpos : 0 < l.length := List.length_pos.mpr hne
      simp only [List.mem_cons] at hb
      cases hb with
      | inl h =>
        rw [h] at hx
        exact List.mem_of_mem_take hx
      | inr h =>
        have := ih (l.drop 16) (by simp only [List.length_drop]; omega) b h x hx
        exact List.mem_of_mem_drop this

theorem chunk16_mem (l : Bytes) : ∀ b ∈ chunk16 l, ∀ x ∈ b, x ∈ l :=
  chunk16_mem_aux l.length l le_rfl

theorem pkcs7pad_range (p : Bytes) (hp : ∀ x ∈ p, x < 256) :
    ∀ x ∈ pkcs7pad p, x < 256 := by
  intro x hx
  rw [pkcs7pad] at hx
  rcases List.mem_append.mp hx with h | h
  · exact hp x h
  · have hm := List.mem_replicate.mp h
    have h16 := padLen_le p.length
    omega

/-- Round trip of the codec for a valid key and IV: decrypting what `encrypt`
produced returns the original plaintext, for every block cipher satisfying
the block-inverse laws (in particular AES-256, which maps byte blocks to
byte blocks). -/
theorem nodeDecrypt_nodeEncrypt (c : BlockCipher) (keyHex : String) (iv p : Bytes)
    (hinv : ∀ k b, b.length = 16 → c.decBlock k (c.encBlock k b) = b)
    (henclen : ∀ k b, b.length = 16 → (c.encBlock k b).length = 16)
    (hencrange : ∀ k b, b.length = 16 → (∀ x ∈ b, x < 256) →
      ∀ x ∈ c.encBlock k b, x < 256)
    (hkey : (bufferFromHex keyHex).length = 32)
    (hiv : iv.length = 16)
    (hivr : ∀ x ∈ iv, x < 256)
    (hpr : ∀ x ∈ p, x < 256) :
    ∃ ctHex, nodeEncrypt c keyHex iv p = .ok ctHex ∧
      nodeDecrypt c keyHex ctHex iv = .ok p := by
  have hblocks := chunk16_pkcs7pad_blocks p
  have hblocksr : ∀ b ∈ chunk16 (pkcs7pad p), ∀ x ∈ b, x < 256 :=
    fun b hb x hx => pkcs7pad_range p hpr x (chunk16_mem _ b hb x hx)
  have hctblocks_len : ∀ cb ∈ cbcEnc c (bufferFromHex keyHex) iv (chunk16 (pkcs7pad p)),
      cb.length = 16 :=
    cbcEnc_length c _ (henclen _) _ iv hiv hblocks
  have hctrange : ∀ cb ∈ cbcEnc c (bufferFromHex keyHex) iv (chunk16 (pkcs7pad p)),
      ∀ x ∈ cb, x < 256 :=
    cbcEnc_range c _ (henclen _) (hencrange _) _ iv hiv hivr hblocks hblocksr
  have hctflat_range :
      ∀ x ∈ (cbcEnc c (bufferFromHex keyHex) iv (chunk16 (pkcs7pad p))).flatten, x < 256 := by
    intro x hx
    rw [List.mem_flatten] at hx
    obtain ⟨cb, hcb, hxcb⟩ := hx
    exact hctrange cb hcb x hxcb
  have hctlen : (cbcEnc c (bufferFromHex keyHex) iv (chunk16 (pkcs7pad p))).flatten.length
      = 16 * (chunk16 (pkcs7pad p)).length := by
    rw [flatten_length_of_blocks _ hctblocks_len, cbcEnc_count]
  have hchpos : 0 < (chunk16 (pkcs7pad p)).length := by
    have hne : pkcs7pad p ≠ [] :=
      List.length_pos.mp (pkcs7pad_length_pos p)
    rw [chunk16_unfold]
    have hemp : (pkcs7pad p).isEmpty = false := by
      cases hc : pkcs7pad p with
      | nil => exact absurd hc hne
      | cons _ _ => rfl
    rw [hemp]
    simp
  refine ⟨bytesToHex (cbcEnc c (bufferFromHex keyHex) iv (chunk16 (pkcs7pad p))).flatten, ?_, ?_⟩
  · simp only [nodeEncrypt]
    rw [if_neg (by rw [hkey]; omega), if_neg (by rw [hiv]; omega)]
  · simp only [nodeDecrypt]
    rw [if_neg (by rw [hkey]; omega), if_neg (by rw [hiv]; omega)]
    rw [bufferFromHex_bytesToHex _ hctflat_range]
    rw [if_neg (by rw [hctlen]; push_neg; constructor <;> omega)]
    rw [chunk16_flatten _ hctblocks_len,
      cbcDec_cbcEnc c _ (hinv _) (henclen _) _ iv hiv hblocks,
      flatten_chunk16, pkcs7unpad_pkcs7pad]

theorem chunk16_of_length16 (l : Bytes) (h : l.length = 16) : chunk16 l = [l] := by
  have := chunk16_append l [] h
  simpa [chunk16_nil] using this

theorem xor_one_ne (h : Nat) : h ^^^ 1 ≠ h := by
  intro heq
  have h2 : h ^^^ (h ^^^ 1) = h ^^^ h := congrArg (fun z => h ^^^ z) heq
  rw [← Nat.xor_assoc, Nat.xor_self, Nat.zero_xor] at h2
  exact one_ne_zero h2

/-- CBC is malleable: for any block cipher (in particular AES-256), altering
the first ciphertext byte of the encryption of `samplePlain` yields a
ciphertext that still decrypts successfully — the final block's PKCS#7
padding is untouched — but to a plaintext different from the original. -/
theorem nodeDecrypt_flipHead_wrong (c : BlockCipher) (keyHex : String) (iv : Bytes)
    (hinv : ∀ k b, b.length = 16 → c.decBlock k (c.encBlock k b) = b)
    (henclen : ∀ k b, b.length = 16 → (c.encBlock k b).length = 16)
    (hencrange : ∀ k b, b.length = 16 → (∀ x ∈ b, x < 256) →
      ∀ x ∈ c.encBlock k b, x < 256)
    (hdeclen : ∀ k b, b.length = 16 → (c.decBlock k b).length = 16)
    (hkey : (bufferFromHex keyHex).length = 32)
    (hiv : iv.length = 16)
    (hivr : ∀ x ∈ iv, x < 256) :
    ∃ ctHex p', nodeEncrypt c keyHex iv samplePlain = .ok ctHex ∧
      flipHead (bufferFromHex ctHex) ≠ bufferFromHex ctHex ∧
      nodeDecrypt c keyHex (bytesToHex (flipHead (bufferFromHex ctHex))) iv = .ok p' ∧
      p' ≠ samplePlain := by
  have h256 : (256 : Nat) = 2 ^ 8 := by norm_num
  set key := bufferFromHex keyHex with hkeydef
  set b1 : Bytes := List.replicate 16 7 with hb1def
  set b2 : Bytes := 7 :: List.replicate 15 15 with hb2def
  have hb1len : b1.length = 16 := by simp [hb1def]
  have hb2len : b2.length = 16 := by simp [hb2def]
  have hpad : pkcs7pad samplePlain = b1 ++ b2 := by decide
  have hchunk : chunk16 (pkcs7pad samplePlain) = [b1, b2] := by
    rw [hpad, chunk16_append b1 b2 hb1len, chunk16_of_length16 b2 hb2len]
  set c1 : Bytes := c.encBlock key (xorBytes b1 iv) with hc1def
  have hxb1 : (xorBytes b1 iv).length = 16 := by
    simp [xorBytes_length, hb1len, hiv]
  have hc1len : c1.length = 16 := henclen key _ hxb1
  set c2 : Bytes := c.encBlock key (xorBytes b2 c1) with hc2def
  have hxb2 : (xorBytes b2 c1).length = 16 := by
    simp [xorBytes_length, hb2len, hc1len]
  have hc2len : c2.length = 16 := henclen key _ hxb2
  have hb1range : ∀ x ∈ b1, x < 256 := by
    intro x hx
    rw [hb1def] at hx
    have := List.mem_replicate.mp hx
    omega
  have hb2range : ∀ x ∈ b2, x < 256 := by
    intro x hx
    rw [hb2def] at hx
    rcases List.mem_cons.mp hx with h | h
    · omega
    · have := List.mem_replicate.mp h
      omega
  have hc1range : ∀ x ∈ c1, x < 256 :=
    hencrange key _ hxb1 (xorBytes_range b1 iv hb1range hivr)
  have hc2range : ∀ x ∈ c2, x < 256 :=
    hencrange key _ hxb2 (xorBytes_range b2 c1 hb2range hc1range)
  have henc : cbcEnc c key iv (chunk16 (pkcs7pad samplePlain)) = [c1, c2] := by
    rw [hchunk]
    simp only [cbcEnc, ← hc1def, ← hc2def]
  have hencflat : (cbcEnc c key iv (chunk16 (pkcs7pad samplePlain))).flatten = c1 ++ c2 := by
    rw [henc]
    simp
  have hctrange : ∀ x ∈ c1 ++ c2, x < 256 := by
    intro x hx
    rcases List.mem_append.mp hx with h | h
    · exact hc1range x h
    · exact hc2range x h
  have hEncOk : nodeEncrypt c keyHex iv samplePlain = .ok (bytesToHex (c1 ++ c2)) := by
    simp only [nodeEncrypt]
    rw [if_neg (by rw [← hkeydef, hkey]; omega), if_neg (by rw [hiv]; omega), hencflat]
  have hbufct : bufferFromHex (bytesToHex (c1 ++ c2)) = c1 ++ c2 :=
    bufferFromHex_bytesToHex _ hctrange
  obtain ⟨h, t, hc1cons⟩ : ∃ h t, c1 = h :: t := by
    cases hc : c1 with
    | nil => rw [hc] at hc1len; simp at hc1len
    | cons a r => exact ⟨a, r, rfl⟩
  have htlen : t.length = 15 := by
    rw [hc1cons] at hc1len
    simpa using hc1len
  have hhlt : h < 256 := hc1range h (by rw [hc1cons]; exact List.mem_cons_self ..)
  set c1f : Bytes := (h ^^^ 1) :: t with hc1fdef
  have hflip : flipHead (c1 ++ c2) = c1f ++ c2 := by
    rw [hc1cons]
    rfl
  have hc1flen : c1f.length = 16 := by
    rw [hc1fdef]
    simpa using htlen
  have hflen : (c1f ++ c2).length = 32 := by
    simp [hc1flen, hc2len]
  have hfliprange : ∀ x ∈ c1f ++ c2, x < 256 := by
    intro x hx
    rcases List.mem_append.mp hx with hx1 | hx2
    · rw [hc1fdef] at hx1
      rcases List.mem_cons.mp hx1 with hh | ht
      · rw [hh, h256]
        exact Nat.xor_lt_two_pow (h256 ▸ hhlt) (by norm_num)
      · exact hc1range x (by rw [hc1cons]; exact List.mem_cons_of_mem _ ht)
    · exact hc2range x hx2
  -- the decrypted second block: original data byte xored with 1, padding intact
  set p1f : Bytes := xorBytes (c.decBlock key c1f) iv with hp1fdef
  have hp1flen : p1f.length = 16 := by
    simp [hp1fdef, xorBytes_length, hdeclen key c1f hc1flen, hiv]
  have hdecc2 : c.decBlock key c2 = xorBytes b2 c1 := by
    rw [hc2def]
    exact hinv key _ hxb2
  have hsecond : xorBytes (c.decBlock key c2) c1f = 6 :: List.replicate 15 15 := by
    rw [hdecc2, hb2def, hc1cons, hc1fdef]
    simp only [xorBytes, List.zipWith_cons_cons]
    congr 1
    · show (7 ^^^ h) ^^^ (h ^^^ 1) = 6
      rw [Nat.xor_assoc, ← Nat.xor_assoc h h 1, Nat.xor_self, Nat.zero_xor]
      decide
    · have hcancel : xorBytes (xorBytes (List.replicate 15 15) t) t = List.replicate 15 15 :=
        xorBytes_cancel _ t (by simp [htlen])
      simpa [xorBytes] using hcancel
  have hDecOk : nodeDecrypt c keyHex (bytesToHex (flipHead (bufferFromHex (bytesToHex (c1 ++ c2))))) iv
      = .ok (p1f ++ [6]) := by
    rw [hbufct, hflip]
    simp only [nodeDecrypt]
    rw [if_neg (by rw [← hkeydef, hkey]; omega), if_neg (by rw [hiv]; omega)]
    rw [bufferFromHex_bytesToHex _ hfliprange]
    rw [if_neg (by rw [hflen]; omega)]
    rw [chunk16_append c1f c2 hc1flen, chunk16_of_length16 c2 hc2len]
    simp only [cbcDec, List.flatten_cons, List.flatten_nil, List.append_nil]
    rw [hsecond, ← hp1fdef]
    have hstep : p1f ++ 6 :: List.replicate 15 15 = pkcs7pad (p1f ++ [6]) := by
      rw [pkcs7pad]
      have hlen17 : (p1f ++ [6]).length = 17 := by simp [hp1flen]
      rw [hlen17]
      have : padLen 17 = 15 := by decide
      rw [this, List.append_assoc]
      rfl
    rw [hstep, pkcs7unpad_pkcs7pad]
  refine ⟨bytesToHex (c1 ++ c2), p1f ++ [6], hEncOk, ?_, hDecOk, ?_⟩
  · rw [hbufct, hflip, hc1cons]
    intro heq
    have hinj := List.cons.injEq (h ^^^ 1) (t ++ c2) h (t ++ c2) ▸ heq
    have : h ^^^ 1 = h := by
      have := congrArg (fun l => l.headD 0) heq
      simpa using this
    exact xor_one_ne h this
  · intro heq
    have hlast := congrArg List.getLast? heq
    rw [List.getLast?_concat] at hlast
    have : samplePlain = List.replicate 16 7 ++ [7] := by decide
    rw [this, List.getLast?_concat] at hlast
    simp at hlast

/-! ### Flow and store lemmas -/

theorem executeTrade_conv_none (env : Env) (ty : TradeKind) (st : ConvState)
    (text : String) (w : World) (a : String) (hasset : st.asset = some a) :
    (executeTrade env ty st text w).conv = none := by
  unfold executeTrade
  rw [hasset]
  dsimp only
  cases hp : parseDec text with
  | none => rfl
  | some amount =>
    dsimp only
    rcases hg : getOrCreateAddress env w with ⟨res, w1⟩
    cases res with
    | error e => rfl
    | ok addr =>
      dsimp only
      cases hbal : env.balanceOf addr (fromAssetOf ty a) with
      | error e => rfl
      | ok bal =>
        dsimp only
        cases hna : (decIsNaN amount || decGt amount bal) with
        | true => rfl
        | false =>
          cases hsub : env.tradeSubmit addr
              { amount := amount, fromAssetId := fromAssetOf ty a,
                toAssetId := toAssetOf ty a } with
          | error e => rfl
          | ok link =>
            dsimp only
            cases hw : env.tradeWait with
            | error e => rfl
            | ok u => rfl

theorem getOrCreateAddress_frame (env : Env) (w : World) :
    (getOrCreateAddress env w).2.intents = w.intents ∧
    (getOrCreateAddress env w).2.replies = w.replies := by
  unfold getOrCreateAddress
  cases hc : (getUserState w.conv).address with
  | some a => exact ⟨rfl, rfl⟩
  | none =>
    dsimp only
    cases hg : env.dbGets w.getCount with
    | found ivS encHex =>
      dsimp only
      cases hl : loadWallet env ivS encHex with
      | error e => exact ⟨rfl, rfl⟩
      | ok wallet => exact ⟨rfl, rfl⟩
    | notFound =>
      dsimp only
      cases hcw : env.createWallet with
      | error e => exact ⟨rfl, rfl⟩
      | ok wallet =>
        dsimp only
        cases he : nodeEncrypt env.cipher env.encryptionKey env.randomIv
            (env.jsonStringify wallet.exportData) with
        | error e => exact ⟨rfl, rfl⟩
        | ok encHex =>
          dsimp only
          cases hput : env.dbPut with
          | error e => exact ⟨rfl, rfl⟩
          | ok u => exact ⟨rfl, rfl⟩
    | failure => exact ⟨rfl, rfl⟩

theorem getOrCreateAddress_caches (env : Env) (w : World) (a : Nat) (w' : World)
    (h : getOrCreateAddress env w = (Except.ok a, w')) :
    (getUserState w'.conv).address = some a := by
  unfold getOrCreateAddress at h
  cases hc : (getUserState w.conv).address with
  | some a0 =>
    rw [hc] at h
    dsimp only at h
    simp only [Prod.mk.injEq, Except.ok.injEq] at h
    obtain ⟨h1, h2⟩ := h
    rw [← h2, hc, h1]
  | none =>
    rw [hc] at h
    dsimp only at h
    cases hg : env.dbGets w.getCount <;> rw [hg] at h <;> dsimp only at h
    case found ivS encHex =>
      cases hl : loadWallet env ivS encHex <;> rw [hl] at h <;> dsimp only at h
      case error e => simp at h
      case ok wallet =>
        simp only [finishWallet, Prod.mk.injEq, Except.ok.injEq] at h
        obtain ⟨h1, h2⟩ := h
        rw [← h2]
        simp [getUserState, updateUserState, applyPatch, h1]
    case notFound =>
      cases hcw : env.createWallet <;> rw [hcw] at h <;> dsimp only at h
      case error e => simp at h
      case ok wallet =>
        cases he : nodeEncrypt env.cipher env.encryptionKey env.randomIv
            (env.jsonStringify wallet.exportData) <;> rw [he] at h <;> dsimp only at h
        case error e => simp at h
        case ok encHex =>
          cases hput : env.dbPut <;> rw [hput] at h <;> dsimp only at h
          case error e => simp at h
          case ok u =>
            simp only [finishWallet, Prod.mk.injEq, Except.ok.injEq] at h
            obtain ⟨h1, h2⟩ := h
            rw [← h2]
            simp [getUserState, updateUserState, applyPatch, h1]
    case failure => simp at h

/-- C1: once an asset is stored and a buy or sell flow is active, the next
inbound message always leaves the conversation cleared to Idle (`none`),
whatever the outcome: successful trade, insufficient balance, amount that
fails to parse, provider error, or credential-store error. -/
theorem claim_C1 (env : Env) (text : String) (w : World) (a : String)
    (hasset : (getUserState w.conv).asset = some a)
    (hflow : (getUserState w.conv).buyRequested = true ∨
      (getUserState w.conv).sellRequested = true) :
    ((handleMessage env text w).2).conv = none := by
  have hcond : ((getUserState w.conv).buyRequested
      || (getUserState w.conv).sellRequested) = true := by
    rcases hflow with h | h <;> simp [h]
  simp only [handleMessage]
  rw [if_pos hcond]
  exact executeTrade_conv_none env (tyOf (getUserState w.conv)) (getUserState w.conv)
    text w a hasset

/-- Witness for C1 at a concrete input: the buy flow for "usdc" with the
amount "1.0" ends with the conversation slot deleted. -/
theorem claim_C1_witness :
    (getUserState wAmountBuy.conv).asset = some "usdc" ∧
    (getUserState wAmountBuy.conv).buyRequested = true ∧
    ((handleMessage envDefault "1.0" wAmountBuy).2).conv = none :=
  ⟨rfl, rfl, claim_C1 envDefault "1.0" wAmountBuy "usdc" rfl (Or.inl rfl)⟩

/-- C7: from the sell flow's asset step, answering "eth" (any letter case)
is rejected with the quote-currency message, the conversation returns to
Idle, no asset is stored and no trade is submitted. -/
theorem claim_C7 (env : Env) (text : String) (w : World)
    (hsell : (getUserState w.conv).sellRequested = true)
    (hbuy : (getUserState w.conv).buyRequested = false)
    (hasset : (getUserState w.conv).asset = none)
    (heth : jsToLower text = "eth") :
    (handleMessage env text w).1 = Route.flow ∧
    ((handleMessage env text w).2).conv = none ∧
    ((handleMessage env text w).2).replies = w.replies ++ [ethSellRejectMsg] ∧
    ((handleMessage env text w).2).intents = w.intents := by
  have hcond : ((getUserState w.conv).buyRequested
      || (getUserState w.conv).sellRequested) = true := by
    simp [hsell]
  have hty : tyOf (getUserState w.conv) = TradeKind.sell := by
    simp [tyOf, hbuy]
  simp only [handleMessage]
  rw [if_pos hcond, hty]
  unfold executeTrade
  rw [hasset]
  dsimp only
  rw [heth]
  simp [clearUserState, plainReply]

/-- Witness for C7: the literal reply "ETH" in upper case. -/
theorem claim_C7_witness :
    (getUserState wAssetSell.conv).sellRequested = true ∧
    (getUserState wAssetSell.conv).asset = none ∧
    jsToLower "ETH" = "eth" ∧
    ((handleMessage envDefault "ETH" wAssetSell).2).conv = none ∧
    ((handleMessage envDefault "ETH" wAssetSell).2).replies = [ethSellRejectMsg] := by
  have h := claim_C7 envDefault "ETH" wAssetSell rfl rfl rfl (by decide)
  exact ⟨rfl, rfl, by decide, h.2.1, h.2.2.1⟩

/-- C10: while a buy or sell flow is active, every inbound text — the menu
labels included — is consumed by the flow (`Route.flow`), never dispatched
as a menu command; in the asset step the text is stored lower-cased as the
asset (unless it is the rejected "eth"-sell case). -/
theorem claim_C10 (env : Env) (text : String) (w : World)
    (hflow : (getUserState w.conv).buyRequested = true ∨
      (getUserState w.conv).sellRequested = true) :
    (handleMessage env text w).1 = Route.flow ∧
    ((getUserState w.conv).asset = none →
      (jsToLower text == "eth" && (tyOf (getUserState w.conv) == TradeKind.sell)) = false →
      (getUserState ((handleMessage env text w).2).conv).asset = some (jsToLower text)) := by
  have hcond : ((getUserState w.conv).buyRequested
      || (getUserState w.conv).sellRequested) = true := by
    rcases hflow with h | h <;> simp [h]
  simp only [handleMessage]
  rw [if_pos hcond]
  refine ⟨rfl, fun hasset hne => ?_⟩
  unfold executeTrade
  rw [hasset]
  dsimp only
  rw [hne]
  simp [sendReply, updateUserState, applyPatch, getUserState]

/-- Witness for C10: the menu label "Buy" typed during a sell flow is
consumed as the asset name "buy", not dispatched as the Buy command. -/
theorem claim_C10_witness :
    ((getUserState wAssetSell.conv).buyRequested = true ∨
      (getUserState wAssetSell.conv).sellRequested = true) ∧
    (handleMessage envDefault "Buy" wAssetSell).1 = Route.flow ∧
    (getUserState ((handleMessage envDefault "Buy" wAssetSell).2).conv).asset
      = some (jsToLower "Buy") := by
  have h := claim_C10 envDefault "Buy" wAssetSell (Or.inr rfl)
  exact ⟨Or.inr rfl, h.1, h.2 rfl (by decide)⟩

/-- C9: a negative amount passes the validation check — a negative decimal
is not NaN and does not exceed a non-negative balance — so a `TradeIntent`
carrying the negative amount is submitted to the wallet gateway. -/
theorem claim_C9 (env : Env) (text : String) (w : World) (a : String) (q : ℚ)
    (addr : Nat) (w1 : World) (bal : ℚ)
    (hflow : (getUserState w.conv).buyRequested = true ∨
      (getUserState w.conv).sellRequested = true)
    (hasset : (getUserState w.conv).asset = some a)
    (hparse : parseDec text = some (Dec.val q))
    (hneg : q < 0)
    (haddr : getOrCreateAddress env w = (Except.ok addr, w1))
    (hbal : env.balanceOf addr (fromAssetOf (tyOf (getUserState w.conv)) a)
      = Except.ok (Dec.val bal))
    (hbalnn : 0 ≤ bal) :
    ((handleMessage env text w).2).intents = w.intents ++
      [{ amount := Dec.val q,
         fromAssetId := fromAssetOf (tyOf (getUserState w.conv)) a,
         toAssetId := toAssetOf (tyOf (getUserState w.conv)) a }] := by
  have hcond : ((getUserState w.conv).buyRequested
      || (getUserState w.conv).sellRequested) = true := by
    rcases hflow with h | h <;> simp [h]
  have hgt : decGt (Dec.val q) (Dec.val bal) = false := by
    simp only [decGt]
    exact decide_eq_false (not_lt.mpr (le_of_lt (lt_of_lt_of_le hneg hbalnn)))
  have hvalid : (decIsNaN (Dec.val q) || decGt (Dec.val q) (Dec.val bal)) = false := by
    simp [decIsNaN, hgt]
  have hfr : w1.intents = w.intents := by
    have := (getOrCreateAddress_frame env w).1
    rw [haddr] at this
    exact this
  simp only [handleMessage]
  rw [if_pos hcond]
  unfold executeTrade
  rw [hasset]
  dsimp only
  rw [hparse]
  dsimp only
  rw [haddr]
  dsimp only
  rw [hbal]
  dsimp only
  rw [hvalid]
  cases hsub : env.tradeSubmit addr
      { amount := Dec.val q,
        fromAssetId := fromAssetOf (tyOf (getUserState w.conv)) a,
        toAssetId := toAssetOf (tyOf (getUserState w.conv)) a } with
  | error e => simp [clearUserState, plainReply, sendReply, hfr]
  | ok link =>
    cases hw : env.tradeWait with
    | error e => simp [clearUserState, plainReply, sendReply, hfr]
    | ok u => simp [clearUserState, plainReply, sendReply, hfr]

/-- Witness for C9: the amount "-1" in the buy flow is submitted as a trade
intent for a negative one ETH spend. -/
theorem claim_C9_witness :
    parseDec "-1" = some (Dec.val (mkRat (-1) 1)) ∧
    mkRat (-1) 1 < 0 ∧
    ((handleMessage envDefault "-1" wAmountBuy).2).intents =
      [{ amount := Dec.val (mkRat (-1) 1),
         fromAssetId := fromAssetOf (tyOf (getUserState wAmountBuy.conv)) "usdc",
         toAssetId := toAssetOf (tyOf (getUserState wAmountBuy.conv)) "usdc" }] := by
  refine ⟨by decide, by decide, ?_⟩
  have h := claim_C9 envDefault "-1" wAmountBuy "usdc" (mkRat (-1) 1) 5 w1Def
    (mkRat 2 1) (Or.inl rfl) rfl (by decide) (by decide) rfl rfl (by decide)
  exact h

/-- C2: in the buy flow's amount step with a parsed amount and resolved
wallet, the insufficient-balance rejection is sent exactly when the amount
is NaN or exceeds the ETH balance — the comparison is the exact rational
(arbitrary-precision) one of the model; otherwise the `TradeIntent`
`{from := ETH, to := the stored asset, amount := the entered amount}` is
submitted, settlement awaited, and the success reply carrying the
settlement link is sent, with the conversation cleared afterwards. -/
theorem claim_C2 (env : Env) (text : String) (w : World) (A : String) (d : Dec)
    (addr : Nat) (w1 : World) (bal : Dec) (link : String)
    (hbuy : (getUserState w.conv).buyRequested = true)
    (hasset : (getUserState w.conv).asset = some A)
    (hparse : parseDec text = some d)
    (haddr : getOrCreateAddress env w = (Except.ok addr, w1))
    (hbal : env.balanceOf addr coinbaseAssetEth = Except.ok bal)
    (hsubmit : env.tradeSubmit addr
      { amount := d, fromAssetId := coinbaseAssetEth, toAssetId := A } = Except.ok link)
    (hwait : env.tradeWait = Except.ok ())
    (hrep : w.replies = []) :
    (((handleMessage env text w).2).replies = [insufficientMsg] ↔
      (decIsNaN d || decGt d bal) = true) ∧
    ((decIsNaN d || decGt d bal) = false →
      ((handleMessage env text w).2).intents = w.intents ++
        [{ amount := d, fromAssetId := coinbaseAssetEth, toAssetId := A }] ∧
      ((handleMessage env text w).2).replies =
        [initiatingMsg TradeKind.buy, successMsg TradeKind.buy link]) ∧
    ((handleMessage env text w).2).conv = none := by
  have hcond : ((getUserState w.conv).buyRequested
      || (getUserState w.conv).sellRequested) = true := by
    simp [hbuy]
  have hty : tyOf (getUserState w.conv) = TradeKind.buy := by
    simp [tyOf, hbuy]
  have hfr : w1.intents = w.intents ∧ w1.replies = w.replies := by
    have := getOrCreateAddress_frame env w
    rw [haddr] at this
    exact this
  simp only [handleMessage]
  rw [if_pos hcond, hty]
  unfold executeTrade
  rw [hasset]
  dsimp only
  rw [hparse]
  dsimp only
  rw [haddr]
  dsimp only [fromAssetOf, toAssetOf]
  rw [hbal]
  dsimp only
  cases hval : (decIsNaN d || decGt d bal) with
  | true =>
    refine ⟨?_, ?_, rfl⟩
    · simp [clearUserState, plainReply, hfr.2, hrep]
    · intro hcontra
      simp at hcontra
  | false =>
    rw [hsubmit, hwait]
    refine ⟨?_, ?_, ?_⟩
    · simp [clearUserState, plainReply, sendReply, hfr.2, hrep]
    · intro hv
      constructor
      · simp [clearUserState, plainReply, sendReply, hfr.1]
      · simp [clearUserState, plainReply, sendReply, hfr.2, hrep]
    · simp [clearUserState, plainReply, sendReply]

/-- Witness for C2: 2 ETH of balance, buying "usdc" for "1.0": not rejected,
intent submitted, success reply with the settlement link. -/
theorem claim_C2_witness :
    parseDec "1.0" = some (Dec.val (mkRat 1 1)) ∧
    (decIsNaN (Dec.val (mkRat 1 1)) || decGt (Dec.val (mkRat 1 1)) (Dec.val (mkRat 2 1)))
      = false ∧
    ((handleMessage envDefault "1.0" wAmountBuy).2).intents =
      [{ amount := Dec.val (mkRat 1 1), fromAssetId := coinbaseAssetEth, toAssetId := "usdc" }] ∧
    ((handleMessage envDefault "1.0" wAmountBuy).2).replies =
      [initiatingMsg TradeKind.buy, successMsg TradeKind.buy "link1"] ∧
    ((handleMessage envDefault "1.0" wAmountBuy).2).conv = none := by
  have h := claim_C2 envDefault "1.0" wAmountBuy "usdc" (Dec.val (mkRat 1 1)) 5 w1Def
    (Dec.val (mkRat 2 1)) "link1" rfl rfl (by decide) rfl rfl rfl rfl rfl
  have h2 := h.2.1 (by decide)
  exact ⟨by decide, by decide, h2.1, h2.2, h.2.2⟩

/-- C3: a new wallet is created and a record written only on the
distinguished not-found lookup outcome; when the lookup finds a record and
the load chain (decrypt, deserialize, import) fails, or the lookup fails
with any other store error, the error is surfaced and no wallet is created,
no record written or overwritten. -/
theorem claim_C3 (env : Env) (w : World)
    (haddr : (getUserState w.conv).address = none)
    (hnn : env.dbGets w.getCount ≠ DbGetResult.notFound)
    (hfail : ∀ ivS encHex, env.dbGets w.getCount = DbGetResult.found ivS encHex →
      ∃ e, loadWallet env ivS encHex = Except.error e) :
    (∃ e, (getOrCreateAddress env w).1 = Except.error e) ∧
    (getOrCreateAddress env w).2.createCount = w.createCount ∧
    (getOrCreateAddress env w).2.putCount = w.putCount ∧
    (getOrCreateAddress env w).2.doc = w.doc := by
  unfold getOrCreateAddress
  rw [haddr]
  dsimp only
  cases hg : env.dbGets w.getCount with
  | found ivS encHex =>
    dsimp only
    obtain ⟨e, he⟩ := hfail ivS encHex hg
    rw [he]
    exact ⟨⟨e, rfl⟩, rfl, rfl, rfl⟩
  | notFound => exact absurd hg hnn
  | failure => exact ⟨⟨.storeFailure, rfl⟩, rfl, rfl, rfl⟩

/-- Witness for C3: a stored record whose key is malformed, so decryption
fails; the error surfaces, nothing is created or written. -/
theorem claim_C3_witness :
    (getUserState (({} : World)).conv).address = none ∧
    envC3.dbGets 0 = DbGetResult.found ivHexZero ctHexC4 ∧
    loadWallet envC3 ivHexZero ctHexC4 = Except.error JsError.keyLength ∧
    (∃ e, (getOrCreateAddress envC3 {}).1 = Except.error e) ∧
    (getOrCreateAddress envC3 {}).2.createCount = 0 ∧
    (getOrCreateAddress envC3 {}).2.doc = none := by
  have h := claim_C3 envC3 {} rfl (by decide) (fun ivS encHex hg => by
    injection hg with h1 h2
    rw [← h1, ← h2]
    exact ⟨JsError.keyLength, by decide⟩)
  exact ⟨rfl, rfl, by decide, h.1, h.2.1, h.2.2.2⟩

/-- C4 (amended): a store error other than not-found is surfaced to the
caller immediately — a single lookup attempt, no retry, the raw store error
rather than a dedicated wrapper — and is never treated as not-found: no
wallet is created and nothing is written. -/
theorem claim_C4_amended (env : Env) (w : World)
    (haddr : (getUserState w.conv).address = none)
    (hget : env.dbGets w.getCount = DbGetResult.failure) :
    (getOrCreateAddress env w).1 = Except.error JsError.storeFailure ∧
    (getOrCreateAddress env w).2.getCount = w.getCount + 1 ∧
    (getOrCreateAddress env w).2.createCount = w.createCount ∧
    (getOrCreateAddress env w).2.doc = w.doc := by
  unfold getOrCreateAddress
  rw [haddr]
  dsimp only
  rw [hget]
  exact ⟨rfl, rfl, rfl, rfl⟩

/-- Witness for C4's amended statement at `envC4`. -/
theorem claim_C4_amended_witness :
    (getUserState (({} : World)).conv).address = none ∧
    envC4.dbGets 0 = DbGetResult.failure ∧
    (getOrCreateAddress envC4 {}).1 = Except.error JsError.storeFailure ∧
    (getOrCreateAddress envC4 {}).2.getCount = 1 :=
  ⟨rfl, rfl, (claim_C4_amended envC4 {} rfl rfl).1, (claim_C4_amended envC4 {} rfl rfl).2.1⟩

/-- Counterexample to C4 as stated: under `envC4` the first lookup fails
transiently while a second lookup would find a healthy record (which loads
to address 9).  The call performs exactly one lookup and surfaces the raw
store error — so the lookup is not retried before the error is surfaced,
and no `StoreUnavailableError` wrapper exists in the code. -/
theorem claim_C4_counterexample :
    (getOrCreateAddress envC4 {}).1 = Except.error JsError.storeFailure ∧
    (getOrCreateAddress envC4 {}).2.getCount = 1 ∧
    envC4.dbGets 1 = DbGetResult.found ivHexZero ctHexC4 ∧
    (getOrCreateAddress envC4 { getCount := 1 }).1 = Except.ok 9 := by
  exact ⟨by decide, by decide, by decide, by decide⟩

/-- C8: once a call to `getOrCreateAddress` succeeds with an address, every
subsequent call — under any environment — returns the same address, via the
in-memory cache written on success. -/
theorem claim_C8 (env env2 : Env) (w : World) (a : Nat) (w2 : World)
    (h : getOrCreateAddress env w = (Except.ok a, w2)) :
    (getOrCreateAddress env2 w2).1 = Except.ok a := by
  have hc := getOrCreateAddress_caches env w a w2 h
  unfold getOrCreateAddress
  rw [hc]

/-- Witness for C8: the first call creates the wallet at address 5; the
second call returns 5 again. -/
theorem claim_C8_witness :
    (getOrCreateAddress envDefault (getOrCreateAddress envDefault ({} : World)).2).1
      = Except.ok 5 :=
  claim_C8 envDefault envDefault {} 5 (getOrCreateAddress envDefault {}).2 rfl

/-- C5 (amended): for every block cipher satisfying the block-cipher laws
(in particular AES-256) and a well-formed key and IV, the codec round-trips
every byte-string plaintext; but because CBC mode is unauthenticated, an
altered ciphertext does NOT always yield a decryption error: flipping the
first byte of the two-block encryption of `samplePlain` leaves the final
block's PKCS#7 padding intact, so decryption succeeds and returns a
plaintext different from the original. -/
theorem claim_C5_amended (c : BlockCipher) (keyHex : String)
    (hinv : ∀ k b, b.length = 16 → c.decBlock k (c.encBlock k b) = b)
    (henclen : ∀ k b, b.length = 16 → (c.encBlock k b).length = 16)
    (hencrange : ∀ k b, b.length = 16 → (∀ x ∈ b, x < 256) →
      ∀ x ∈ c.encBlock k b, x < 256)
    (hdeclen : ∀ k b, b.length = 16 → (c.decBlock k b).length = 16)
    (hkey : (bufferFromHex keyHex).length = 32) :
    (∀ iv p, iv.length = 16 → (∀ x ∈ iv, x < 256) → (∀ x ∈ p, x < 256) →
      ∃ ctHex, nodeEncrypt c keyHex iv p = .ok ctHex ∧
        nodeDecrypt c keyHex ctHex iv = .ok p) ∧
    (∀ iv, iv.length = 16 → (∀ x ∈ iv, x < 256) →
      ∃ ctHex p2, nodeEncrypt c keyHex iv samplePlain = .ok ctHex ∧
        flipHead (bufferFromHex ctHex) ≠ bufferFromHex ctHex ∧
        nodeDecrypt c keyHex (bytesToHex (flipHead (bufferFromHex ctHex))) iv = .ok p2 ∧
        p2 ≠ samplePlain) :=
  ⟨fun iv p hiv hivr hpr =>
      nodeDecrypt_nodeEncrypt c keyHex iv p hinv henclen hencrange hkey hiv hivr hpr,
   fun iv hiv hivr =>
      nodeDecrypt_flipHead_wrong c keyHex iv hinv henclen hencrange hdeclen hkey hiv hivr⟩

/-- Witness for C5's amended statement: the identity block permutation
satisfies all the block-cipher laws, with the all-zero 64-hex-digit key. -/
theorem claim_C5_amended_witness :
    (∀ k b, b.length = 16 → idCipher.decBlock k (idCipher.encBlock k b) = b) ∧
    (bufferFromHex zeroKeyHex).length = 32 ∧
    ((∀ iv p, iv.length = 16 → (∀ x ∈ iv, x < 256) → (∀ x ∈ p, x < 256) →
      ∃ ctHex, nodeEncrypt idCipher zeroKeyHex iv p = .ok ctHex ∧
        nodeDecrypt idCipher zeroKeyHex ctHex iv = .ok p) ∧
    (∀ iv, iv.length = 16 → (∀ x ∈ iv, x < 256) →
      ∃ ctHex p2, nodeEncrypt idCipher zeroKeyHex iv samplePlain = .ok ctHex ∧
        flipHead (bufferFromHex ctHex) ≠ bufferFromHex ctHex ∧
        nodeDecrypt idCipher zeroKeyHex (bytesToHex (flipHead (bufferFromHex ctHex))) iv
          = .ok p2 ∧
        p2 ≠ samplePlain)) :=
  ⟨fun _ _ _ => rfl, by decide,
   claim_C5_amended idCipher zeroKeyHex (fun _ _ _ => rfl) (fun _ _ h => h)
     (fun _ _ _ hr => hr) (fun _ _ h => h) (by decide)⟩

/-- Counterexample to C5 as stated, at a fully concrete input: the
encryption of `samplePlain` with its first ciphertext byte flipped decrypts
SUCCESSFULLY — no `DecryptionError` — to `pBadC5`, a plaintext different
from `samplePlain`.  (CBC with PKCS#7 checks only the final block's
padding; the construction is cipher-agnostic, see the amended theorem.) -/
theorem claim_C5_counterexample :
    nodeEncrypt idCipher zeroKeyHex (List.replicate 16 0) samplePlain
      = Except.ok (bytesToHex ctBytesC5) ∧
    flipHead ctBytesC5 ≠ ctBytesC5 ∧
    nodeDecrypt idCipher zeroKeyHex (bytesToHex (flipHead ctBytesC5)) (List.replicate 16 0)
      = Except.ok pBadC5 ∧
    pBadC5 ≠ samplePlain :=
  ⟨by decide, by decide, by decide, by decide⟩

/-- C6 (amended): startup validates only that the four environment
variables are present and non-empty; a present but malformed or wrong-length
encryption key passes startup, and the malformed-key failure happens only at
the first `encrypt`/`decrypt` call (`createCipheriv`'s key-length check). -/
theorem claim_C6_amended (e : ProcEnvVars) (s : String) (c : BlockCipher)
    (iv p : Bytes) (ctHex : String)
    (hk : e.encryptionKey = some s) (hs : s ≠ "")
    (ht : truthyStr e.telegramBotToken = true)
    (hn : truthyStr e.coinbaseApiKeyName = true)
    (hc : truthyStr e.coinbaseApiKeySecret = true)
    (hlen : (bufferFromHex s).length ≠ 32) :
    startupEnvCheck e = true ∧
    nodeEncrypt c s iv p = Except.error JsError.keyLength ∧
    nodeDecrypt c s ctHex iv = Except.error JsError.keyLength := by
  refine ⟨?_, ?_, ?_⟩
  · rw [startupEnvCheck, ht, hn, hc, hk]
    simp [truthyStr, hs]
  · simp [nodeEncrypt, hlen]
  · simp [nodeDecrypt, hlen]

/-- Witness for C6's amended statement at the concrete two-hex-digit key. -/
theorem claim_C6_amended_witness :
    envVarsShortKey.encryptionKey = some "ab" ∧
    (bufferFromHex "ab").length ≠ 32 ∧
    startupEnvCheck envVarsShortKey = true ∧
    nodeEncrypt idCipher "ab" (List.replicate 16 0) [1]
      = Except.error JsError.keyLength := by
  have h := claim_C6_amended envVarsShortKey "ab" idCipher (List.replicate 16 0) [1] "00"
    rfl (by decide) rfl rfl rfl (by decide)
  exact ⟨rfl, by decide, h.1, h.2.1⟩

/-- Counterexample to C6 as stated: `ENCRYPTION_KEY = "ab"` is present, so
startup validation passes — the process starts and accepts messages — even
though the key is not a valid 32-byte AES-256 key; the failure is deferred
to the first `encrypt` call. -/
theorem claim_C6_counterexample :
    startupEnvCheck envVarsShortKey = true ∧
    (bufferFromHex "ab").length ≠ 32 ∧
    nodeEncrypt idCipher "ab" (List.replicate 16 0) [1]
      = Except.error JsError.keyLength ∧
    nodeDecrypt idCipher "ab" "00" (List.replicate 16 0)
      = Except.error JsError.keyLength :=
  ⟨by decide, by decide, by decide, by decide⟩

